import Mathlib

set_option maxRecDepth 4000

namespace NotionMCP

/-- Python strings are modelled as lists of characters. -/
abbrev Str := List Char

/-- Characters stripped by Python str.rstrip() with no arguments (the ASCII whitespace
characters; the source only deals with ASCII markup markers, so the wider Unicode
whitespace set is not modelled). -/
def pySpace (c : Char) : Bool :=
  c == ' ' || c == '\t' || c == '\n' || c == '\r' || c == '\x0b' || c == '\x0c'

/-- Python line.rstrip(): remove trailing whitespace. -/
def rstrip (l : Str) : Str := (l.reverse.dropWhile pySpace).reverse

/-- Python line.startswith(p): p is a prefix of s. -/
def startsWith : Str → Str → Bool
  | [], _ => true
  | a :: pre, s =>
    match s with
    | [] => false
    | b :: s => a == b && startsWith pre s

/-- Helper for splitLines: prepend a character onto the first line of a line list. -/
def consHead (c : Char) : List Str → List Str
  | [] => [[c]]
  | l :: ls => (c :: l) :: ls

/-- Python content.split on the newline character: splitting the empty string gives one
empty line, and every newline separates two (possibly empty) lines. -/
def splitLines : Str → List Str
  | [] => [[]]
  | c :: cs => if c = '\n' then [] :: splitLines cs else consHead c (splitLines cs)

/-- Python str.join of a list of lines with the newline character. -/
def joinLines : List Str → Str
  | [] => []
  | [l] => l
  | l :: l2 :: ls => l ++ '\n' :: joinLines (l2 :: ls)

/-- One inline rich-text run, as a Notion JSON object. The keys the source reads or
writes are the run's type, text.content (written by markdown_to_blocks) and
plain_text (read by extract_text); each is optional since field presence is not
guaranteed on service-returned data. -/
structure RichTextRun where
  rtype : Option Str
  text_content : Option Str
  plain_text : Option Str
  deriving DecidableEq

/-- The kind-specific sub-object of a block (the value stored under the type-named
key): rich_text, language (code blocks) and checked (to_do blocks), all optional. -/
structure BlockData where
  rich_text : Option (List RichTextRun)
  language : Option Str
  checked : Option Bool
  deriving DecidableEq

/-- A Notion block record: the optional type key plus the dictionary of type-named
sub-objects, modelled as an association list since Python dicts preserve insertion
order. -/
structure Block where
  btype : Option Str
  fields : List (Str × BlockData)
  deriving DecidableEq

/-- Python block.get(key, empty-dict) over the type-named sub-objects of a block. -/
def dictGetD (d : List (Str × BlockData)) (k : Str) : BlockData :=
  match d.find? (fun p => p.1 == k) with
  | some p => p.2
  | none => ⟨none, none, none⟩

def kParagraph : Str := ['p', 'a', 'r', 'a', 'g', 'r', 'a', 'p', 'h']

def kHeading1 : Str := ['h', 'e', 'a', 'd', 'i', 'n', 'g', '_', '1']

def kHeading2 : Str := ['h', 'e', 'a', 'd', 'i', 'n', 'g', '_', '2']

def kHeading3 : Str := ['h', 'e', 'a', 'd', 'i', 'n', 'g', '_', '3']

def kBulleted : Str :=
  ['b', 'u', 'l', 'l', 'e', 't', 'e', 'd', '_', 'l', 'i', 's', 't', '_', 'i', 't', 'e', 'm']

def kNumbered : Str :=
  ['n', 'u', 'm', 'b', 'e', 'r', 'e', 'd', '_', 'l', 'i', 's', 't', '_', 'i', 't', 'e', 'm']

def kCode : Str := ['c', 'o', 'd', 'e']

def kQuote : Str := ['q', 'u', 'o', 't', 'e']

def kTodo : Str := ['t', 'o', '_', 'd', 'o']

def kText : Str := ['t', 'e', 'x', 't']

def mHash1 : Str := ['#', ' ']

def mHash2 : Str := ['#', '#', ' ']

def mHash3 : Str := ['#', '#', '#', ' ']

def mDash : Str := ['-', ' ']

def mStar : Str := ['*', ' ']

def mFence : Str := ['\x60', '\x60', '\x60']

/-- The single rich-text run markdown_to_blocks builds for a line: the JSON object
with type "text" and text.content set to the extracted content. Note that it carries
no plain_text key. -/
def textRun (content : Str) : RichTextRun := ⟨some kText, some content, none⟩

/-- The block record markdown_to_blocks appends for a classified line: the type key
and, under the type-named key, a single rich-text run holding the content. -/
def mkBlock (ty content : Str) : Block :=
  ⟨some ty, [(ty, ⟨some [textRun content], none, none⟩)]⟩

/-- Classification of an already-stripped line, with the startswith tests in the
source's order (lines 190-216): first "# ", then "## ", then "### ", then the two
bullet markers, then the code fence, else paragraph. -/
def classifyLine (line : Str) : Option Block :=
  if line = [] then none
  else if startsWith mHash1 line then some (mkBlock kHeading1 (line.drop 2))
  else if startsWith mHash2 line then some (mkBlock kHeading2 (line.drop 3))
  else if startsWith mHash3 line then some (mkBlock kHeading3 (line.drop 4))
  else if startsWith mDash line || startsWith mStar line then
    some (mkBlock kBulleted (line.drop 2))
  else if startsWith mFence line then none
  else some (mkBlock kParagraph line)

/-- One iteration of the markdown_to_blocks loop body (source lines 185-216): rstrip
the line, then classify; the result is the block appended for this line, if any. -/
def lineToBlock (raw : Str) : Option Block :=
  classifyLine (rstrip raw)

/-- Source function markdown_to_blocks (lines 180-218): split into lines, classify
each line independently, collect the emitted blocks in order. -/
def markdown_to_blocks (content : Str) : List Block :=
  (splitLines content).filterMap lineToBlock

/-- Source function extract_text (lines 261-263): concatenate each run's plain_text,
defaulting to the empty string when the key is absent. -/
def extract_text (rich_text : List RichTextRun) : Str :=
  (rich_text.map (fun t => t.plain_text.getD [])).flatten

/-- One iteration of the blocks_to_markdown loop body (source lines 225-256): the line
appended for a block, or none when the block type is unrecognized. -/
def renderBlock (block : Block) : Option Str :=
  let bt := block.btype.getD []
  if bt = kParagraph then
    some (extract_text ((dictGetD block.fields kParagraph).rich_text.getD []))
  else if bt = kHeading1 then
    some (mHash1 ++ extract_text ((dictGetD block.fields kHeading1).rich_text.getD []))
  else if bt = kHeading2 then
    some (mHash2 ++ extract_text ((dictGetD block.fields kHeading2).rich_text.getD []))
  else if bt = kHeading3 then
    some (mHash3 ++ extract_text ((dictGetD block.fields kHeading3).rich_text.getD []))
  else if bt = kBulleted then
    some (mDash ++ extract_text ((dictGetD block.fields kBulleted).rich_text.getD []))
  else if bt = kNumbered then
    some ("1. ".toList ++ extract_text ((dictGetD block.fields kNumbered).rich_text.getD []))
  else if bt = kCode then
    some (mFence ++ (dictGetD block.fields kCode).language.getD [] ++
      '\n' :: extract_text ((dictGetD block.fields kCode).rich_text.getD []) ++ '\n' :: mFence)
  else if bt = kQuote then
    some ("> ".toList ++ extract_text ((dictGetD block.fields kQuote).rich_text.getD []))
  else if bt = kTodo then
    some ("- [".toList ++
      (if (dictGetD block.fields kTodo).checked.getD false then "x".toList else " ".toList) ++
      "] ".toList ++ extract_text ((dictGetD block.fields kTodo).rich_text.getD []))
  else none

/-- Source function blocks_to_markdown (lines 221-258): render each recognized block
to one line and join the lines with newlines. -/
def blocks_to_markdown (blocks : List Block) : Str :=
  joinLines (blocks.filterMap renderBlock)

/-- A property value record as scanned by extract_title: the keys the source reads
are type and title (a rich-text array). -/
structure PropValue where
  ptype : Option Str
  title : Option (List RichTextRun)
  deriving DecidableEq

/-- Source function extract_title (lines 266-271): scan the property map in insertion
order and return the text of the first title-typed value, else the Untitled
sentinel. -/
def extract_title : List (Str × PropValue) → Str
  | [] => "Untitled".toList
  | (_, value) :: rest =>
    if value.ptype = some ("title".toList) then extract_text (value.title.getD [])
    else extract_title rest

/-- A JSON value arriving in the properties argument of notion_create_database_item.
Python floats are carried opaquely by the type parameter F, since the coercion never
inspects them; vnone and vlist stand for JSON values of the remaining types (null,
arrays) that match no isinstance branch. -/
inductive PyVal (F : Type) where
  | vstr (s : Str)
  | vbool (b : Bool)
  | vint (n : Int)
  | vfloat (f : F)
  | vnone
  | vlist (elems : List (PyVal F))

/-- A coerced Notion property as built by the source (lines 441-452): title wraps the
string as a title-type rich-text value, rich_text wraps it as a plain rich-text
value; checkbox and number carry the value unchanged. -/
inductive NotionProp (F : Type) where
  | title (content : Str)
  | rich_text (content : Str)
  | checkbox (value : Bool)
  | numberInt (value : Int)
  | numberFloat (value : F)
  deriving DecidableEq

/-- The loop of notion_create_database_item (source lines 441-452), with the
accumulator notion_props made explicit; acc.isEmpty is the Python truthiness test
"if not notion_props". Keys of a Python dict are distinct, so dict assignment is
modelled as appending. -/
def coerceLoop {F : Type} (acc : List (Str × NotionProp F)) :
    List (Str × PyVal F) → List (Str × NotionProp F)
  | [] => acc
  | (key, value) :: rest =>
    match value with
    | .vstr s =>
      if acc.isEmpty then coerceLoop (acc ++ [(key, .title s)]) rest
      else coerceLoop (acc ++ [(key, .rich_text s)]) rest
    | .vbool b => coerceLoop (acc ++ [(key, .checkbox b)]) rest
    | .vint n => coerceLoop (acc ++ [(key, .numberInt n)]) rest
    | .vfloat f => coerceLoop (acc ++ [(key, .numberFloat f)]) rest
    | _ => coerceLoop acc rest

/-- Property coercion of notion_create_database_item (source lines 441-452). -/
def coerceProps {F : Type} (props : List (Str × PyVal F)) : List (Str × NotionProp F) :=
  coerceLoop [] props

/-- Classification of an already-stripped line in the precedence order the spec
writes out (section 4.1): blank, then "### ", then "## ", then "# ", then bullets,
then the code fence, else paragraph. Stated from the spec's words in order to compare
it with the source's test order in classifyLine. -/
def classifySpecOrder (line : Str) : Option Block :=
  if line = [] then none
  else if startsWith mHash3 line then some (mkBlock kHeading3 (line.drop 4))
  else if startsWith mHash2 line then some (mkBlock kHeading2 (line.drop 3))
  else if startsWith mHash1 line then some (mkBlock kHeading1 (line.drop 2))
  else if startsWith mDash line || startsWith mStar line then
    some (mkBlock kBulleted (line.drop 2))
  else if startsWith mFence line then none
  else some (mkBlock kParagraph line)

/-- Shape invariant of every pair (block type, content) that markdown_to_blocks can
emit: the content is non-empty, carries no newline and no trailing whitespace, and
when the type is paragraph the content matches none of the recognized markers. -/
def GoodPair (ty c : Str) : Prop :=
  rstrip c = c ∧ c ≠ [] ∧ '\n' ∉ c ∧
    (ty = kHeading1 ∨ ty = kHeading2 ∨ ty = kHeading3 ∨ ty = kBulleted ∨
      (ty = kParagraph ∧ startsWith mHash1 c = false ∧ startsWith mHash2 c = false ∧
        startsWith mHash3 c = false ∧ startsWith mDash c = false ∧
        startsWith mStar c = false ∧ startsWith mFence c = false))

/-- The line blocks_to_markdown renders for an emitted (type, content) pair once the
service has populated plain_text: the type's marker followed by the content. -/
def renderPair (ty c : Str) : Str :=
  if ty = kHeading1 then mHash1 ++ c
  else if ty = kHeading2 then mHash2 ++ c
  else if ty = kHeading3 then mHash3 ++ c
  else if ty = kBulleted then mDash ++ c
  else c

/-- Modelled from the spec: the remote service (out of this repository) returns each
submitted rich-text run with its plain_text field populated from the submitted
text.content (spec section 6: service-returned runs expose plain_text). -/
def populateRun (r : RichTextRun) : RichTextRun := ⟨r.rtype, r.text_content, r.text_content⟩

/-- Modelled from the spec: service echo of a block's kind-specific sub-object. -/
def populateData (d : BlockData) : BlockData :=
  ⟨d.rich_text.map (fun rs => rs.map populateRun), d.language, d.checked⟩

/-- Modelled from the spec: service echo of a whole block. -/
def populatePlainText (b : Block) : Block :=
  ⟨b.btype, b.fields.map (fun p => (p.1, populateData p.2))⟩

/-- One round trip of a document through the service: markdown to blocks, the service
echo populating plain_text on every run, then blocks back to markdown. -/
def roundTrip (doc : Str) : Str :=
  blocks_to_markdown ((markdown_to_blocks doc).map populatePlainText)

/-- Reference definition for the amended C1, following the spec's words with the one
change the code forces: a string value becomes the title only while no earlier key
has produced a property (the flag starts true and turns false at the first emitted
property); later strings become rich_text, booleans checkbox, numbers number, and
values of any other type are dropped. -/
def coerceSpec {F : Type} (first : Bool) : List (Str × PyVal F) → List (Str × NotionProp F)
  | [] => []
  | (key, value) :: rest =>
    match value with
    | .vstr s => (key, if first then .title s else .rich_text s) :: coerceSpec false rest
    | .vbool b => (key, .checkbox b) :: coerceSpec false rest
    | .vint n => (key, .numberInt n) :: coerceSpec false rest
    | .vfloat f => (key, .numberFloat f) :: coerceSpec false rest
    | _ => coerceSpec first rest

/-- A value matches one of the three isinstance branches of the coercion (str, bool,
int/float) exactly when this returns true. -/
def isCoercible {F : Type} : PyVal F → Bool
  | .vstr _ => true
  | .vbool _ => true
  | .vint _ => true
  | .vfloat _ => true
  | _ => false

/-- Whether a coerced property is a title property. -/
def hasTitleProp {F : Type} : NotionProp F → Bool
  | .title _ => true
  | _ => false

/-- The nine block types blocks_to_markdown recognizes. -/
def recognizedKinds : List Str :=
  [kParagraph, kHeading1, kHeading2, kHeading3, kBulleted, kNumbered, kCode, kQuote, kTodo]

theorem lineToBlock_eq (raw : Str) : lineToBlock raw = classifyLine (rstrip raw) := rfl

theorem startsWith_iff {p s : Str} : startsWith p s = true ↔ ∃ t, p ++ t = s := by
  induction p generalizing s with
  | nil => simp [startsWith]
  | cons a pre ih =>
    cases s with
    | nil => simp [startsWith]
    | cons b s =>
      simp only [startsWith, Bool.and_eq_true, beq_iff_eq, ih, List.cons_append,
        List.cons.injEq]
      constructor
      · rintro ⟨rfl, t, rfl⟩
        exact ⟨t, rfl, rfl⟩
      · rintro ⟨t, rfl, rfl⟩
        exact ⟨rfl, t, rfl⟩

theorem rstrip_eq_self_iff {l : Str} :
    rstrip l = l ↔ l.reverse.dropWhile pySpace = l.reverse := by
  constructor
  · intro h
    have h2 := congrArg List.reverse h
    simp only [rstrip, List.reverse_reverse] at h2
    exact h2
  · intro h
    simp only [rstrip, h, List.reverse_reverse]

theorem head_not_space_of_dropWhile_self {b : Char} {u : Str}
    (h : (b :: u).dropWhile pySpace = b :: u) : pySpace b = false := by
  by_cases hp : pySpace b = true
  · exfalso
    rw [List.dropWhile_cons_of_pos hp] at h
    have hle : (u.dropWhile pySpace).length ≤ u.length :=
      (List.dropWhile_sublist pySpace (l := u)).length_le
    rw [h] at hle
    simp only [List.length_cons] at hle
    omega
  · simpa using hp

theorem reverse_cons_of_ne_nil {c : Str} (hne : c ≠ []) : ∃ b u, c.reverse = b :: u := by
  cases hcr : c.reverse with
  | nil => exact absurd (List.reverse_eq_nil_iff.mp hcr) hne
  | cons b u => exact ⟨b, u, rfl⟩

theorem rstrip_append {p c : Str} (hc : rstrip c = c) (hne : c ≠ []) :
    rstrip (p ++ c) = p ++ c := by
  obtain ⟨b, u, hbu⟩ := reverse_cons_of_ne_nil hne
  have h1 : c.reverse.dropWhile pySpace = c.reverse := rstrip_eq_self_iff.mp hc
  rw [hbu] at h1
  have hb := head_not_space_of_dropWhile_self h1
  rw [rstrip_eq_self_iff, List.reverse_append, hbu, List.cons_append]
  exact List.dropWhile_cons_of_neg (by simp [hb])

theorem rstrip_eq_self_of_append {p c : Str} (h : rstrip (p ++ c) = p ++ c) (hne : c ≠ []) :
    rstrip c = c := by
  obtain ⟨b, u, hbu⟩ := reverse_cons_of_ne_nil hne
  have h1 := rstrip_eq_self_iff.mp h
  rw [List.reverse_append, hbu, List.cons_append] at h1
  have hb := head_not_space_of_dropWhile_self h1
  rw [rstrip_eq_self_iff, hbu]
  exact List.dropWhile_cons_of_neg (by simp [hb])

theorem dropWhile_self_idem (p : Char → Bool) (l : Str) :
    (l.dropWhile p).dropWhile p = l.dropWhile p := by
  induction l with
  | nil => rfl
  | cons a t ih =>
    by_cases hp : p a = true
    · rw [List.dropWhile_cons_of_pos hp]
      exact ih
    · simp [List.dropWhile_cons_of_neg hp]

theorem rstrip_idem (l : Str) : rstrip (rstrip l) = rstrip l := by
  rw [rstrip_eq_self_iff]
  simp only [rstrip, List.reverse_reverse]
  exact dropWhile_self_idem pySpace l.reverse

theorem mem_of_mem_rstrip {c : Char} {l : Str} (h : c ∈ rstrip l) : c ∈ l := by
  simp only [rstrip, List.mem_reverse] at h
  exact List.mem_reverse.mp ((List.dropWhile_sublist pySpace).subset h)

theorem splitLines_ne_nil (s : Str) : splitLines s ≠ [] := by
  cases s with
  | nil => simp [splitLines]
  | cons c cs =>
    simp only [splitLines]
    by_cases hc : c = '\n'
    · simp [hc]
    · simp only [if_neg hc]
      cases splitLines cs with
      | nil => simp [consHead]
      | cons l ls => simp [consHead]

theorem mem_splitLines_no_newline (s : Str) : ∀ l ∈ splitLines s, '\n' ∉ l := by
  induction s with
  | nil =>
    intro l hl
    simp only [splitLines, List.mem_singleton] at hl
    simp [hl]
  | cons c cs ih =>
    intro l hl
    by_cases hc : c = '\n'
    · simp only [splitLines, if_pos hc] at hl
      rcases List.mem_cons.mp hl with rfl | hl
      · simp
      · exact ih l hl
    · simp only [splitLines, if_neg hc] at hl
      cases hL : splitLines cs with
      | nil => exact absurd hL (splitLines_ne_nil cs)
      | cons m ms =>
        rw [hL] at hl
        simp only [consHead] at hl
        rcases List.mem_cons.mp hl with rfl | hl
        · intro hm
          rcases List.mem_cons.mp hm with he | hm
          · exact hc he.symm
          · exact ih m (by rw [hL]; exact List.mem_cons_self m ms) hm
        · exact ih l (by rw [hL]; exact List.mem_cons_of_mem m hl)

theorem splitLines_append_newline (l rest : Str) :
    '\n' ∉ l → splitLines (l ++ '\n' :: rest) = l :: splitLines rest := by
  induction l with
  | nil => intro _; simp [splitLines]
  | cons a t ih =>
    intro h
    have ha : a ≠ '\n' := by rintro rfl; simp at h
    have ht : '\n' ∉ t := fun hm => h (List.mem_cons_of_mem _ hm)
    simp only [List.cons_append, splitLines, if_neg ha, List.append_eq, ih ht, consHead]

theorem splitLines_eq_single (l : Str) : '\n' ∉ l → splitLines l = [l] := by
  induction l with
  | nil => intro _; rfl
  | cons a t ih =>
    intro h
    have ha : a ≠ '\n' := by rintro rfl; simp at h
    have ht : '\n' ∉ t := fun hm => h (List.mem_cons_of_mem _ hm)
    simp only [splitLines, if_neg ha, ih ht, consHead]

theorem splitLines_joinLines (l : Str) (ls : List Str) :
    (∀ m ∈ l :: ls, '\n' ∉ m) → splitLines (joinLines (l :: ls)) = l :: ls := by
  induction ls generalizing l with
  | nil =>
    intro h
    simp only [joinLines]
    exact splitLines_eq_single l (h l (List.mem_cons_self l []))
  | cons l2 ls ih =>
    intro h
    have h1 : '\n' ∉ l := h l (List.mem_cons_self l _)
    simp only [joinLines]
    rw [splitLines_append_newline l _ h1, ih l2 (fun m hm => h m (List.mem_cons_of_mem _ hm))]

theorem marker_content_good {mark line t : Str}
    (hr : rstrip line = line) (hn : '\n' ∉ line) (ht : mark ++ t = line)
    (hrs : rstrip mark ≠ mark) :
    rstrip t = t ∧ t ≠ [] ∧ '\n' ∉ t := by
  subst ht
  have htne : t ≠ [] := by
    rintro rfl
    rw [List.append_nil] at hr
    exact hrs hr
  exact ⟨rstrip_eq_self_of_append hr htne, htne,
    fun hm => hn (List.mem_append.mpr (Or.inr hm))⟩

theorem classifyLine_shape {line : Str} {b : Block}
    (hr : rstrip line = line) (hn : '\n' ∉ line) (h : classifyLine line = some b) :
    ∃ ty c, b = mkBlock ty c ∧ GoodPair ty c := by
  unfold classifyLine at h
  split_ifs at h with h0 h1 h2 h3 h4 h5
  · obtain ⟨t, ht⟩ := startsWith_iff.mp h1
    obtain ⟨hct, htne, hnt⟩ := marker_content_good hr hn ht (by decide)
    refine ⟨kHeading1, t, ?_, hct, htne, hnt, Or.inl rfl⟩
    rw [← Option.some.inj h, ← ht]
    rfl
  · obtain ⟨t, ht⟩ := startsWith_iff.mp h2
    obtain ⟨hct, htne, hnt⟩ := marker_content_good hr hn ht (by decide)
    refine ⟨kHeading2, t, ?_, hct, htne, hnt, Or.inr (Or.inl rfl)⟩
    rw [← Option.some.inj h, ← ht]
    rfl
  · obtain ⟨t, ht⟩ := startsWith_iff.mp h3
    obtain ⟨hct, htne, hnt⟩ := marker_content_good hr hn ht (by decide)
    refine ⟨kHeading3, t, ?_, hct, htne, hnt, Or.inr (Or.inr (Or.inl rfl))⟩
    rw [← Option.some.inj h, ← ht]
    rfl
  · cases hd : startsWith mDash line with
    | true =>
      obtain ⟨t, ht⟩ := startsWith_iff.mp hd
      obtain ⟨hct, htne, hnt⟩ := marker_content_good hr hn ht (by decide)
      refine ⟨kBulleted, t, ?_, hct, htne, hnt, Or.inr (Or.inr (Or.inr (Or.inl rfl)))⟩
      rw [← Option.some.inj h, ← ht]
      rfl
    | false =>
      have hs : startsWith mStar line = true := by
        rcases Bool.or_eq_true_iff.mp h4 with h' | h'
        · exact absurd h' (by simp [hd])
        · exact h'
      obtain ⟨t, ht⟩ := startsWith_iff.mp hs
      obtain ⟨hct, htne, hnt⟩ := marker_content_good hr hn ht (by decide)
      refine ⟨kBulleted, t, ?_, hct, htne, hnt, Or.inr (Or.inr (Or.inr (Or.inl rfl)))⟩
      rw [← Option.some.inj h, ← ht]
      rfl
  · have e1 : startsWith mHash1 line = false := by
      simpa only [Bool.not_eq_true] using h1
    have e2 : startsWith mHash2 line = false := by
      simpa only [Bool.not_eq_true] using h2
    have e3 : startsWith mHash3 line = false := by
      simpa only [Bool.not_eq_true] using h3
    have e45 : startsWith mDash line = false ∧ startsWith mStar line = false := by
      simpa only [Bool.not_eq_true, Bool.or_eq_false_iff] using h4
    have e6 : startsWith mFence line = false := by
      simpa only [Bool.not_eq_true] using h5
    exact ⟨kParagraph, line, (Option.some.inj h).symm, hr, h0, hn,
      Or.inr (Or.inr (Or.inr (Or.inr ⟨rfl, e1, e2, e3, e45.1, e45.2, e6⟩)))⟩

theorem lineToBlock_renderPair {ty c : Str} (h : GoodPair ty c) :
    lineToBlock (renderPair ty c) = some (mkBlock ty c) := by
  obtain ⟨hc, hne, -, hty⟩ := h
  rcases hty with rfl | rfl | rfl | rfl | ⟨rfl, hp1, hp2, hp3, hp4, hp5, hp6⟩
  · show classifyLine (rstrip (renderPair kHeading1 c)) = _
    rw [show renderPair kHeading1 c = mHash1 ++ c from rfl, rstrip_append hc hne]
    rfl
  · show classifyLine (rstrip (renderPair kHeading2 c)) = _
    rw [show renderPair kHeading2 c = mHash2 ++ c from rfl, rstrip_append hc hne]
    rfl
  · show classifyLine (rstrip (renderPair kHeading3 c)) = _
    rw [show renderPair kHeading3 c = mHash3 ++ c from rfl, rstrip_append hc hne]
    rfl
  · show classifyLine (rstrip (renderPair kBulleted c)) = _
    rw [show renderPair kBulleted c = mDash ++ c from rfl, rstrip_append hc hne]
    rfl
  · show classifyLine (rstrip (renderPair kParagraph c)) = _
    rw [show renderPair kParagraph c = c from rfl, hc]
    unfold classifyLine
    simp [hne, hp1, hp2, hp3, hp4, hp5, hp6]

theorem renderBlock_populate {ty c : Str} (h : GoodPair ty c) :
    renderBlock (populatePlainText (mkBlock ty c)) = some (renderPair ty c) := by
  obtain ⟨-, -, -, hty⟩ := h
  rcases hty with rfl | rfl | rfl | rfl | ⟨rfl, -⟩
  · show some (mHash1 ++ (c ++ [])) = some (mHash1 ++ c)
    rw [List.append_nil]
  · show some (mHash2 ++ (c ++ [])) = some (mHash2 ++ c)
    rw [List.append_nil]
  · show some (mHash3 ++ (c ++ [])) = some (mHash3 ++ c)
    rw [List.append_nil]
  · show some (mDash ++ (c ++ [])) = some (mDash ++ c)
    rw [List.append_nil]
  · show some (c ++ []) = some c
    rw [List.append_nil]

theorem renderPair_no_newline {ty c : Str} (h : GoodPair ty c) : '\n' ∉ renderPair ty c := by
  obtain ⟨-, -, hn, hty⟩ := h
  rcases hty with rfl | rfl | rfl | rfl | ⟨rfl, -⟩
  · show '\n' ∉ mHash1 ++ c
    intro hm
    rcases List.mem_append.mp hm with h' | h'
    · exact absurd h' (by decide)
    · exact hn h'
  · show '\n' ∉ mHash2 ++ c
    intro hm
    rcases List.mem_append.mp hm with h' | h'
    · exact absurd h' (by decide)
    · exact hn h'
  · show '\n' ∉ mHash3 ++ c
    intro hm
    rcases List.mem_append.mp hm with h' | h'
    · exact absurd h' (by decide)
    · exact hn h'
  · show '\n' ∉ mDash ++ c
    intro hm
    rcases List.mem_append.mp hm with h' | h'
    · exact absurd h' (by decide)
    · exact hn h'
  · show '\n' ∉ c
    exact hn

theorem filterMap_lineToBlock_pairs (lines : List Str) (h : ∀ l ∈ lines, '\n' ∉ l) :
    ∃ pairs : List (Str × Str),
      lines.filterMap lineToBlock = pairs.map (fun p => mkBlock p.1 p.2) ∧
        ∀ p ∈ pairs, GoodPair p.1 p.2 := by
  induction lines with
  | nil => exact ⟨[], rfl, by simp⟩
  | cons raw rest ih =>
    obtain ⟨pairs, hmap, hgood⟩ := ih (fun l hl => h l (List.mem_cons_of_mem _ hl))
    cases hc : lineToBlock raw with
    | none =>
      refine ⟨pairs, ?_, hgood⟩
      rw [List.filterMap_cons_none hc]
      exact hmap
    | some b =>
      have hn : '\n' ∉ rstrip raw :=
        fun hm => h raw (List.mem_cons_self _ _) (mem_of_mem_rstrip hm)
      rw [lineToBlock_eq] at hc
      obtain ⟨ty, c, rfl, hgp⟩ := classifyLine_shape (rstrip_idem raw) hn hc
      refine ⟨(ty, c) :: pairs, ?_, ?_⟩
      · rw [List.filterMap_cons_some (by rw [lineToBlock_eq]; exact hc), hmap, List.map_cons]
      · intro p hp
        rcases List.mem_cons.mp hp with rfl | hp
        · exact hgp
        · exact hgood p hp

theorem markdown_to_blocks_pairs (doc : Str) :
    ∃ pairs : List (Str × Str),
      markdown_to_blocks doc = pairs.map (fun p => mkBlock p.1 p.2) ∧
        ∀ p ∈ pairs, GoodPair p.1 p.2 :=
  filterMap_lineToBlock_pairs (splitLines doc) (mem_splitLines_no_newline doc)

theorem filterMap_render_pairs (pairs : List (Str × Str))
    (h : ∀ p ∈ pairs, GoodPair p.1 p.2) :
    ((pairs.map (fun p => mkBlock p.1 p.2)).map populatePlainText).filterMap renderBlock =
      pairs.map (fun p => renderPair p.1 p.2) := by
  induction pairs with
  | nil => rfl
  | cons q qs ih =>
    rw [List.map_cons, List.map_cons,
      List.filterMap_cons_some (renderBlock_populate (h q (List.mem_cons_self q qs))),
      ih (fun p hp => h p (List.mem_cons_of_mem _ hp)), List.map_cons]

theorem filterMap_lineToBlock_render (pairs : List (Str × Str))
    (h : ∀ p ∈ pairs, GoodPair p.1 p.2) :
    (pairs.map (fun p => renderPair p.1 p.2)).filterMap lineToBlock =
      pairs.map (fun p => mkBlock p.1 p.2) := by
  induction pairs with
  | nil => rfl
  | cons q qs ih =>
    rw [List.map_cons,
      List.filterMap_cons_some (lineToBlock_renderPair (h q (List.mem_cons_self q qs))),
      ih (fun p hp => h p (List.mem_cons_of_mem _ hp)), List.map_cons]

theorem roundTrip_fixed (pairs : List (Str × Str)) (h : ∀ p ∈ pairs, GoodPair p.1 p.2) :
    roundTrip (joinLines (pairs.map (fun p => renderPair p.1 p.2))) =
      joinLines (pairs.map (fun p => renderPair p.1 p.2)) := by
  cases pairs with
  | nil => decide
  | cons q qs =>
    have hlines : ∀ m ∈ (q :: qs).map (fun p => renderPair p.1 p.2), '\n' ∉ m := by
      intro m hm
      obtain ⟨p, hp, rfl⟩ := List.mem_map.mp hm
      exact renderPair_no_newline (h p hp)
    have hsj : splitLines (joinLines ((q :: qs).map (fun p => renderPair p.1 p.2))) =
        (q :: qs).map (fun p => renderPair p.1 p.2) := by
      rw [List.map_cons] at hlines ⊢
      exact splitLines_joinLines _ _ hlines
    unfold roundTrip markdown_to_blocks
    rw [hsj, filterMap_lineToBlock_render _ h]
    unfold blocks_to_markdown
    rw [filterMap_render_pairs _ h]

theorem coerceLoop_eq_spec {F : Type} (props : List (Str × PyVal F)) :
    ∀ acc, coerceLoop acc props = acc ++ coerceSpec acc.isEmpty props := by
  induction props with
  | nil => intro acc; simp [coerceLoop, coerceSpec]
  | cons kv rest ih =>
    intro acc
    obtain ⟨key, value⟩ := kv
    cases value with
    | vstr s =>
      simp only [coerceLoop, coerceSpec]
      cases acc with
      | nil => simp [ih]
      | cons a as => simp [ih]
    | vbool b =>
      simp only [coerceLoop, coerceSpec]
      cases acc with
      | nil => simp [ih]
      | cons a as => simp [ih]
    | vint n =>
      simp only [coerceLoop, coerceSpec]
      cases acc with
      | nil => simp [ih]
      | cons a as => simp [ih]
    | vfloat f =>
      simp only [coerceLoop, coerceSpec]
      cases acc with
      | nil => simp [ih]
      | cons a as => simp [ih]
    | vnone =>
      simp only [coerceLoop, coerceSpec]
      exact ih acc
    | vlist es =>
      simp only [coerceLoop, coerceSpec]
      exact ih acc

theorem coerceProps_eq_spec {F : Type} (props : List (Str × PyVal F)) :
    coerceProps props = coerceSpec true props := by
  rw [coerceProps, coerceLoop_eq_spec props []]
  rfl

theorem coerceSpec_skip {F : Type} (key : Str) (value : PyVal F)
    (hv : isCoercible value = false) (post : List (Str × PyVal F)) :
    ∀ (first : Bool) (pre : List (Str × PyVal F)),
      coerceSpec first (pre ++ (key, value) :: post) = coerceSpec first (pre ++ post) := by
  intro first pre
  induction pre generalizing first with
  | nil =>
    cases value with
    | vnone => rfl
    | vlist es => rfl
    | vstr s => simp [isCoercible] at hv
    | vbool b => simp [isCoercible] at hv
    | vint n => simp [isCoercible] at hv
    | vfloat f => simp [isCoercible] at hv
  | cons q qs ih =>
    obtain ⟨k2, v2⟩ := q
    cases v2 <;> simp only [List.cons_append, coerceSpec, List.append_eq] <;> rw [ih]

theorem dictGetD_mkBlock (ty c : Str) :
    dictGetD (mkBlock ty c).fields ty = ⟨some [textRun c], none, none⟩ := by
  simp [dictGetD, mkBlock, List.find?, beq_self_eq_true]

/-- C1 counterexample: over the map with first key "Done" mapped to the boolean true
and second key "Name" mapped to a string, the coercion produces a checkbox for "Done"
and a rich_text for "Name" and no title property at all, refuting the claim that the
first key processed is always treated as the title regardless of value types. -/
theorem coerce_first_key_not_title_cex :
    coerceProps (F := Unit)
        [("Done".toList, .vbool true), ("Name".toList, .vstr ("Task A".toList))] =
        [("Done".toList, .checkbox true), ("Name".toList, .rich_text ("Task A".toList))] ∧
      (coerceProps (F := Unit)
          [("Done".toList, .vbool true), ("Name".toList, .vstr ("Task A".toList))]).map
        (fun p => hasTitleProp p.2) = [false, false] := by
  constructor
  · decide
  · decide

/-- C1 (amended): the coercion agrees, on every flat properties map, with the spec-text
rule amended so that the title slot is taken by a string value only while the output
map is still empty (in particular by the first key when its value is a string);
subsequent strings become rich_text, booleans checkbox, ints and floats number, and
output keys keep the map's insertion order. The spec's worked example coerces to
title, checkbox, number in order. -/
theorem coerce_props_spec :
    (∀ (F : Type) (props : List (Str × PyVal F)), coerceProps props = coerceSpec true props) ∧
      coerceProps (F := Unit)
          [("Name".toList, .vstr ("Task A".toList)), ("Done".toList, .vbool true),
            ("Priority".toList, .vint 2)] =
        [("Name".toList, .title ("Task A".toList)), ("Done".toList, .checkbox true),
          ("Priority".toList, .numberInt 2)] := by
  refine ⟨?_, by decide⟩
  intro F props
  exact coerceProps_eq_spec props

/-- C2 counterexample: for the document "# T", one direct pass through the two source
functions renders "# " (extract_text reads plain_text, which markdown_to_blocks never
writes), and a second pass renders the empty string, so the directly composed round
trip is not idempotent. -/
theorem round_trip_not_idempotent_cex :
    blocks_to_markdown (markdown_to_blocks
        (blocks_to_markdown (markdown_to_blocks ("# T".toList)))) ≠
      blocks_to_markdown (markdown_to_blocks ("# T".toList)) := by
  decide

/-- C2 (amended): the round trip is idempotent once the remote service is interposed,
modelled as populating each run's plain_text from its submitted text content: with
roundTrip doc = blocks_to_markdown of the service echo of markdown_to_blocks doc,
re-parsing and re-rendering the rendered output yields the same text. -/
theorem normalized_round_trip_idempotent (doc : Str) :
    roundTrip (roundTrip doc) = roundTrip doc := by
  obtain ⟨pairs, hmap, hgood⟩ := markdown_to_blocks_pairs doc
  have hrt : roundTrip doc = joinLines (pairs.map (fun p => renderPair p.1 p.2)) := by
    unfold roundTrip
    rw [hmap]
    unfold blocks_to_markdown
    rw [filterMap_render_pairs pairs hgood]
  rw [hrt]
  exact roundTrip_fixed pairs hgood

/-- C3: every line whose stripped text begins with the triple-backtick fence yields no
block, and the fenced example document parses to exactly one paragraph block holding
the inner line. -/
theorem fence_lines_emit_nothing :
    (∀ raw : Str, startsWith mFence (rstrip raw) = true → lineToBlock raw = none) ∧
      markdown_to_blocks ("```python\nprint(1)\n```".toList) =
        [mkBlock kParagraph ("print(1)".toList)] := by
  constructor
  · intro raw h
    obtain ⟨t, ht⟩ := startsWith_iff.mp h
    rw [lineToBlock_eq, ← ht]
    rfl
  · decide

/-- C3 witness: a concrete fence line is dropped. -/
theorem fence_lines_emit_nothing_witness : lineToBlock ("```js".toList) = none :=
  fence_lines_emit_nothing.1 ("```js".toList) (by decide)

/-- C4: classifying with the spec's precedence order (blank, "### ", "## ", "# ",
bullets, fence, paragraph) agrees with the source's test order on every line, and the
three heading markers map to heading3, heading2, heading1 with the remainder after
the marker as content. -/
theorem heading_precedence_agrees :
    (∀ line : Str, classifySpecOrder line = classifyLine line) ∧
      markdown_to_blocks ("### Sub".toList) = [mkBlock kHeading3 ("Sub".toList)] ∧
      markdown_to_blocks ("## Mid".toList) = [mkBlock kHeading2 ("Mid".toList)] ∧
      markdown_to_blocks ("# Top".toList) = [mkBlock kHeading1 ("Top".toList)] := by
  refine ⟨?_, by decide, by decide, by decide⟩
  intro line
  by_cases h3 : startsWith mHash3 line = true
  · obtain ⟨t, ht⟩ := startsWith_iff.mp h3
    rw [← ht]
    rfl
  · by_cases h2 : startsWith mHash2 line = true
    · obtain ⟨t, ht⟩ := startsWith_iff.mp h2
      rw [← ht]
      rfl
    · by_cases h1 : startsWith mHash1 line = true
      · obtain ⟨t, ht⟩ := startsWith_iff.mp h1
        rw [← ht]
        rfl
      · simp only [Bool.not_eq_true] at h1 h2 h3
        simp [classifySpecOrder, classifyLine, h1, h2, h3]

/-- C5: extract_title scans the property map in insertion order and returns the
concatenated plain text of the first title-typed entry; any map without a title-typed
entry, including the empty map, yields the "Untitled" sentinel. -/
theorem extract_title_first_title :
    extract_title [] = "Untitled".toList ∧
      (∀ props : List (Str × PropValue),
        (∀ p ∈ props, p.2.ptype ≠ some ("title".toList)) →
        extract_title props = "Untitled".toList) ∧
      (∀ (pre : List (Str × PropValue)) (key : Str) (value : PropValue)
          (post : List (Str × PropValue)),
        (∀ p ∈ pre, p.2.ptype ≠ some ("title".toList)) →
        value.ptype = some ("title".toList) →
        extract_title (pre ++ (key, value) :: post) = extract_text (value.title.getD [])) := by
  refine ⟨rfl, ?_, ?_⟩
  · intro props h
    induction props with
    | nil => rfl
    | cons q qs ih =>
      obtain ⟨k, v⟩ := q
      simp only [extract_title]
      rw [if_neg (h (k, v) (List.mem_cons_self _ _))]
      exact ih (fun p hp => h p (List.mem_cons_of_mem _ hp))
  · intro pre key value post
    induction pre with
    | nil =>
      intro _ hv
      simp only [List.nil_append, extract_title]
      rw [if_pos hv]
    | cons q qs ih =>
      intro hpre hv
      obtain ⟨k, v⟩ := q
      simp only [List.cons_append, extract_title]
      rw [if_neg (hpre (k, v) (List.mem_cons_self _ _))]
      exact ih (fun p hp => hpre p (List.mem_cons_of_mem _ hp)) hv

/-- C5 witness: the spec's worked example returns "Report", and a map with no
title-typed entry returns "Untitled". -/
theorem extract_title_first_title_witness :
    extract_title
        [("Status".toList, ⟨some ("status".toList), none⟩),
          ("Name".toList, ⟨some ("title".toList),
            some [⟨none, none, some ("Report".toList)⟩]⟩)] = "Report".toList ∧
      extract_title [("Status".toList, ⟨some ("status".toList), none⟩)] =
        "Untitled".toList := by
  constructor
  · have h := extract_title_first_title.2.2
      [("Status".toList, ⟨some ("status".toList), none⟩)] ("Name".toList)
      ⟨some ("title".toList), some [⟨none, none, some ("Report".toList)⟩]⟩ []
      (by decide) (by decide)
    exact h.trans (by decide)
  · exact extract_title_first_title.2.1 _ (by decide)

/-- C6: blocks_to_markdown degrades rather than fails: a block whose type is not one
of the nine recognized kinds renders no line and is skipped with no effect on the
rest, and each missing optional field (type, type-named sub-object, rich_text,
language, checked, plain_text) falls back to the empty or false default. -/
theorem blocks_to_markdown_best_effort :
    (∀ block : Block, block.btype.getD [] ∉ recognizedKinds → renderBlock block = none) ∧
      (∀ (pre post : List Block) (block : Block), block.btype.getD [] ∉ recognizedKinds →
        blocks_to_markdown (pre ++ block :: post) = blocks_to_markdown (pre ++ post)) ∧
      renderBlock ⟨none, []⟩ = none ∧
      renderBlock ⟨some kParagraph, []⟩ = some [] ∧
      renderBlock ⟨some kHeading1, []⟩ = some ("# ".toList) ∧
      renderBlock ⟨some kCode, []⟩ = some ("```\n\n```".toList) ∧
      renderBlock ⟨some kTodo, []⟩ = some ("- [ ] ".toList) ∧
      extract_text [⟨some kText, none, none⟩] = [] := by
  have hskip : ∀ block : Block,
      block.btype.getD [] ∉ recognizedKinds → renderBlock block = none := by
    intro block h
    simp only [recognizedKinds, List.mem_cons, List.not_mem_nil, or_false, not_or] at h
    obtain ⟨n1, n2, n3, n4, n5, n6, n7, n8, n9⟩ := h
    simp only [renderBlock]
    rw [if_neg n1, if_neg n2, if_neg n3, if_neg n4, if_neg n5, if_neg n6, if_neg n7,
      if_neg n8, if_neg n9]
  refine ⟨hskip, ?_, by decide, by decide, by decide, by decide, by decide, by decide⟩
  intro pre post block hb
  unfold blocks_to_markdown
  rw [List.filterMap_append, List.filterMap_append, List.filterMap_cons_none (hskip block hb)]

/-- C6 witness: a concrete unrecognized block type (a table) is skipped. -/
theorem blocks_to_markdown_best_effort_witness :
    renderBlock ⟨some ("table".toList), []⟩ = none ∧
      blocks_to_markdown [mkBlock kParagraph ("hi".toList), ⟨some ("table".toList), []⟩] =
        blocks_to_markdown [mkBlock kParagraph ("hi".toList)] := by
  refine ⟨blocks_to_markdown_best_effort.1 _ (by decide), ?_⟩
  exact blocks_to_markdown_best_effort.2.1 [mkBlock kParagraph ("hi".toList)] []
    ⟨some ("table".toList), []⟩ (by decide)

/-- C7: the empty document and any document whose lines are all blank after stripping
produce no blocks, and a blank line contributes no block. -/
theorem blank_lines_no_blocks :
    markdown_to_blocks [] = [] ∧
      (∀ raw : Str, rstrip raw = [] → lineToBlock raw = none) ∧
      (∀ content : Str, (∀ l ∈ splitLines content, rstrip l = []) →
        markdown_to_blocks content = []) := by
  refine ⟨by decide, ?_, ?_⟩
  · intro raw h
    rw [lineToBlock_eq, h]
    rfl
  · intro content h
    unfold markdown_to_blocks
    rw [List.filterMap_eq_nil_iff]
    intro raw hraw
    rw [lineToBlock_eq, h raw hraw]
    rfl

/-- C7 witness: a document of whitespace-only lines parses to no blocks. -/
theorem blank_lines_no_blocks_witness : markdown_to_blocks ("   \n\t\n  ".toList) = [] :=
  blank_lines_no_blocks.2.2 ("   \n\t\n  ".toList) (by decide)

/-- C8: a non-blank line matching none of the recognized markers yields exactly one
paragraph block whose single run is the stripped line verbatim. -/
theorem unrecognized_line_paragraph :
    ∀ raw : Str, rstrip raw ≠ [] →
      startsWith mHash1 (rstrip raw) = false → startsWith mHash2 (rstrip raw) = false →
      startsWith mHash3 (rstrip raw) = false → startsWith mDash (rstrip raw) = false →
      startsWith mStar (rstrip raw) = false → startsWith mFence (rstrip raw) = false →
      lineToBlock raw = some (mkBlock kParagraph (rstrip raw)) := by
  intro raw hne h1 h2 h3 h4 h5 h6
  rw [lineToBlock_eq]
  unfold classifyLine
  simp [hne, h1, h2, h3, h4, h5, h6]

/-- C8 witness: a concrete plain line with trailing spaces becomes one paragraph with
the stripped text. -/
theorem unrecognized_line_paragraph_witness :
    lineToBlock ("Just a plain line.  ".toList) =
      some (mkBlock kParagraph ("Just a plain line.".toList)) := by
  have h := unrecognized_line_paragraph ("Just a plain line.  ".toList) (by decide)
    (by decide) (by decide) (by decide) (by decide) (by decide) (by decide)
  exact h.trans (by decide)

/-- C9: every block markdown_to_blocks emits has one of the five types heading_1,
heading_2, heading_3, bulleted_list_item, paragraph, and carries exactly one
rich-text run whose content holds no newline and no trailing whitespace. -/
theorem emitted_blocks_invariant :
    ∀ (s : Str), ∀ b ∈ markdown_to_blocks s,
      ∃ ty c, b = mkBlock ty c ∧
        ty ∈ [kHeading1, kHeading2, kHeading3, kBulleted, kParagraph] ∧
        (dictGetD b.fields ty).rich_text = some [textRun c] ∧
        '\n' ∉ c ∧ rstrip c = c := by
  intro s b hb
  unfold markdown_to_blocks at hb
  obtain ⟨raw, hraw, hcl⟩ := List.mem_filterMap.mp hb
  rw [lineToBlock_eq] at hcl
  have hn : '\n' ∉ rstrip raw :=
    fun hm => mem_splitLines_no_newline s raw hraw (mem_of_mem_rstrip hm)
  obtain ⟨ty, c, rfl, hgp⟩ := classifyLine_shape (rstrip_idem raw) hn hcl
  obtain ⟨hc, hne, hnc, hty⟩ := hgp
  refine ⟨ty, c, rfl, ?_, ?_, hnc, hc⟩
  · rcases hty with rfl | rfl | rfl | rfl | ⟨rfl, -⟩ <;> simp
  · rw [dictGetD_mkBlock]

/-- C9 witness: the invariant instantiated at a concrete bulleted item. -/
theorem emitted_blocks_invariant_witness :
    ∃ ty c, mkBlock kBulleted ("item".toList) = mkBlock ty c ∧
      ty ∈ [kHeading1, kHeading2, kHeading3, kBulleted, kParagraph] ∧
      (dictGetD (mkBlock kBulleted ("item".toList)).fields ty).rich_text =
        some [textRun c] ∧
      '\n' ∉ c ∧ rstrip c = c :=
  emitted_blocks_invariant ("- item".toList) (mkBlock kBulleted ("item".toList)) (by decide)

/-- C10: a key whose value is neither a string, nor a boolean, nor an int or float is
silently dropped from the coerced properties, with no effect on the other keys. -/
theorem non_coercible_values_skipped :
    ∀ (F : Type) (pre post : List (Str × PyVal F)) (key : Str) (value : PyVal F),
      isCoercible value = false →
      coerceProps (pre ++ (key, value) :: post) = coerceProps (pre ++ post) := by
  intro F pre post key value hv
  show coerceLoop [] _ = coerceLoop [] _
  rw [coerceLoop_eq_spec, coerceLoop_eq_spec, coerceSpec_skip key value hv post]

/-- C10 witness: a null-like value and the surrounding keys, coerced concretely. -/
theorem non_coercible_values_skipped_witness :
    coerceProps (F := Unit)
        [("Name".toList, .vstr ("A".toList)), ("Tags".toList, .vlist []),
          ("N".toList, .vint 3)] =
      [("Name".toList, .title ("A".toList)), ("N".toList, .numberInt 3)] := by
  have h := non_coercible_values_skipped Unit [("Name".toList, .vstr ("A".toList))]
    [("N".toList, .vint 3)] ("Tags".toList) (.vlist []) (by decide)
  exact h.trans (by decide)

end NotionMCP
